import Mathlib

set_option maxRecDepth 200000

/-!
Verification of the structural patcher in scripts/enrich_schematic_lcsc.py.

The program's core is the function enrich_schematic(content, lcsc_data): it
walks every occurrence of the literal pattern (regex
r'(property "LCSC" "(C\x5cd+)")') in the document, finds the enclosing
record's boundaries by scanning backward to the nearest opening parenthesis
(str.rfind) and forward with a depth counter, decides per site whether to
skip (the 300-character window after the record contains the literal
token starting an LCSC_Manufacturer property), leave unresolved (the code
has no entry in the lookup mapping), or append two synthesized property
records, and finally copies the remaining text.

The embedding below models documents as List Char and reproduces Python's
slice semantics (clamping, negative indices), str.rfind (including its -1
result, which makes the scan loop start at index -1, i.e. at the last
character of the document), and dict.get as an association-list lookup.
-/

/-- The double-quote character (written numerically to keep character
literals simple). -/
def dq : Char := Char.ofNat 34

/-- The backslash character. -/
def bslash : Char := Char.ofNat 92

/-- Python slice-bound normalization: a negative bound counts from the end,
and both bounds are clamped into [0, len]. -/
def pyIdx (len : Nat) (i : Int) : Nat :=
  if i < 0 then ((len : Int) + i).toNat else min i.toNat len

/-- Python s[a:b] on a list of characters. -/
def pySlice (s : List Char) (a b : Int) : List Char :=
  (s.take (pyIdx s.length b)).drop (pyIdx s.length a)

/-- Index of the last occurrence of a character in a list, if any. -/
def rfindIdx (l : List Char) (c : Char) : Option Nat :=
  match l with
  | [] => none
  | x :: xs =>
    match rfindIdx xs c with
    | some j => some (j + 1)
    | none => if x = c then some 0 else none

/-- Python content.rfind(c, 0, stop): the greatest index of c in
content[0:stop], or -1 when there is none. -/
def pyRfind (s : List Char) (c : Char) (stop : Int) : Int :=
  match rfindIdx (pySlice s 0 stop) c with
  | some j => (j : Int)
  | none => -1

/-- One step of the depth counter of the scan loop at lines 127-134:
increment on an opening parenthesis, decrement on a closing one. -/
def stepDepth (d : Int) (c : Char) : Int :=
  if c = '(' then d + 1 else if c = ')' then d - 1 else d

/-- The depth reached after scanning a list of characters from depth d. -/
def netFrom (d : Int) (cs : List Char) : Int :=
  cs.foldl stepDepth d

/-- The scan loop of lines 126-134 on the suffix of the document it
traverses: the index (within cs) of the first closing parenthesis that
brings the depth counter to zero, or none when the loop runs off the end
of the text.  Quoting is not consulted: every parenthesis counts. -/
def scanBreak : List Char → Int → Option Nat
  | [], _ => none
  | c :: rest, d =>
    let d2 := stepDepth d c
    if c = ')' ∧ d2 = 0 then some 0
    else (scanBreak rest d2).map (· + 1)

/-- prop_end of lines 124-135: the scan starts at prop_start (the result of
content.rfind, hence possibly -1, in which case Python's content[i] first
reads the last character of the document) and returns i + 1 where i is the
loop index at the break, or len + 1 when no closing parenthesis balances. -/
def propEnd (s : List Char) (pstart : Int) : Nat :=
  if 0 ≤ pstart then
    match scanBreak (s.drop pstart.toNat) 0 with
    | some j => pstart.toNat + j + 1
    | none => s.length + 1
  else
    match s.getLast? with
    | none => 0
    | some c =>
      match scanBreak (c :: s) 0 with
      | some j => j
      | none => s.length + 1

/-- The literal part of the key regex r'(property "LCSC" "(C\x5cd+)")'
before the digits. -/
def keyLit : List Char := "property \"LCSC\" \"C".toList

/-- A match of the key regex at the head of s: requires the 18-character
literal, then a maximal nonempty run of digits, then a closing quote;
returns group 2 (the LCSC code, C followed by the digits).  The match
length is 18 + code.length (the literal, the digits and the quote). -/
def matchKeyAt (s : List Char) : Option (List Char) :=
  if keyLit.isPrefixOf s then
    let rest := s.drop 18
    let digits := rest.takeWhile Char.isDigit
    if digits.isEmpty then none
    else
      match rest.drop digits.length with
      | c :: _ => if c = dq then some ('C' :: digits) else none
      | [] => none
  else none

/-- re.finditer of the key regex, written with explicit fuel so that the
kernel can evaluate it: every step consumes at least one character, so
fuel equal to the length of the scanned text never runs out. -/
def findMatchesFuel : Nat → List Char → Nat → List (Nat × List Char)
  | 0, _, _ => []
  | _ + 1, [], _ => []
  | fuel + 1, c :: rest, off =>
    match matchKeyAt (c :: rest) with
    | some code =>
      (off, code) ::
        findMatchesFuel fuel ((c :: rest).drop (18 + code.length)) (off + (18 + code.length))
    | none => findMatchesFuel fuel rest (off + 1)

/-- All non-overlapping matches of the key regex in document order, each
as (absolute start offset, LCSC code). -/
def matchesOf (s : List Char) : List (Nat × List Char) :=
  findMatchesFuel s.length s 0

/-- Python's substring test (needle in hay). -/
def hasSubstr (needle : List Char) : List Char → Bool
  | [] => needle.isEmpty
  | c :: rest => needle.isPrefixOf (c :: rest) || hasSubstr needle rest

/-- The token looked for in the already-enriched check of line 139. -/
def mfrNeedle : List Char := "(property \"LCSC_Manufacturer\"".toList

/-- Lines 138-139: the already-enriched check inspects the 300-character
window after prop_end for the start of an LCSC_Manufacturer property. -/
def isAlreadyEnriched (s : List Char) (pend : Nat) : Bool :=
  hasSubstr mfrNeedle (pySlice s (pend : Int) ((pend : Int) + 300))

/-- A looked-up part record (the value of the lcsc_data mapping). -/
structure LcscPart where
  manufacturer : List Char
  mpn : List Char
deriving DecidableEq

/-- Line 124: prop_start = content.rfind('(', 0, match.start()). -/
def siteStart (s : List Char) (mstart : Nat) : Int :=
  pyRfind s '(' (mstart : Int)

/-- Lines 126-135: the record end offset computed for a match. -/
def siteEnd (s : List Char) (mstart : Nat) : Nat :=
  propEnd s (siteStart s mstart)

/-- Lines 152-158: the indentation of the line holding prop_start — the
leading run of spaces and tabs of content[line_start:prop_start]. -/
def siteIndent (s : List Char) (pstart : Int) : List Char :=
  let lineStart : Int := pyRfind s '\n' pstart + 1
  (pySlice s lineStart pstart).takeWhile (fun c => c = ' ' || c = '\t')

/-- Lines 160-179: the synthesized text for one site — an
LCSC_Manufacturer property and an LCSC_MPN property, each with the fixed
(at ...) and (effects ...) template, every line prefixed with the inferred
indentation, the looked-up values spliced in verbatim. -/
def newProps (indent : List Char) (part : LcscPart) : List Char :=
  ('\n' :: indent) ++ "(property \"LCSC_Manufacturer\" \"".toList
    ++ part.manufacturer ++ "\"\n".toList
  ++ indent ++ "\t(at 0 0 0)\n".toList
  ++ indent ++ "\t(effects\n".toList
  ++ indent ++ "\t\t(font\n".toList
  ++ indent ++ "\t\t\t(size 1.27 1.27)\n".toList
  ++ indent ++ "\t\t)\n".toList
  ++ indent ++ "\t\t(hide yes)\n".toList
  ++ indent ++ "\t)\n".toList
  ++ indent ++ ")\n".toList
  ++ indent ++ "(property \"LCSC_MPN\" \"".toList
    ++ part.mpn ++ "\"\n".toList
  ++ indent ++ "\t(at 0 0 0)\n".toList
  ++ indent ++ "\t(effects\n".toList
  ++ indent ++ "\t\t(font\n".toList
  ++ indent ++ "\t\t\t(size 1.27 1.27)\n".toList
  ++ indent ++ "\t\t)\n".toList
  ++ indent ++ "\t\t(hide yes)\n".toList
  ++ indent ++ "\t)\n".toList
  ++ indent ++ ")".toList

/-- What the loop body decides for one site: skip (already enriched),
unresolved (no lookup entry), or apply an insertion. -/
inductive SiteDecision where
  | skip
  | unresolved
  | apply (ins : List Char)
deriving DecidableEq

/-- The decision taken at lines 138-149 for one match, in the source's
order: the already-enriched window test first, then the lookup. -/
def decideSite (s : List Char) (lk : List (List Char × LcscPart)) (m : Nat × List Char) :
    SiteDecision :=
  if isAlreadyEnriched s (siteEnd s m.1) then .skip
  else
    match List.lookup m.2 lk with
    | none => .unresolved
    | some part => .apply (newProps (siteIndent s (siteStart s m.1)) part)

/-- The loop state of lines 118-121: the accumulated output, the forward
cursor, and the two nonlocal counters. -/
structure RunState where
  result : List Char
  pos : Nat
  updated : Nat
  skipped : Nat
deriving DecidableEq

/-- One iteration of the loop of lines 120-184: copy the unmodified span
up to prop_end, optionally append the synthesized properties, advance the
cursor, and bump the matching counter. -/
def stepMatch (s : List Char) (lk : List (List Char × LcscPart)) (st : RunState)
    (m : Nat × List Char) : RunState :=
  let e := siteEnd s m.1
  match decideSite s lk m with
  | .skip =>
    ⟨st.result ++ pySlice s (st.pos : Int) (e : Int), e, st.updated, st.skipped + 1⟩
  | .unresolved =>
    ⟨st.result ++ pySlice s (st.pos : Int) (e : Int), e, st.updated, st.skipped⟩
  | .apply ins =>
    ⟨st.result ++ pySlice s (st.pos : Int) (e : Int) ++ ins, e, st.updated + 1, st.skipped⟩

/-- enrich_schematic (lines 117-187): fold the loop over all matches, then
append the verbatim tail content[pos:]; returns (new text, updated,
skipped). -/
def enrich_schematic (s : List Char) (lk : List (List Char × LcscPart)) :
    List Char × Nat × Nat :=
  let fin := (matchesOf s).foldl (stepMatch s lk) ⟨[], 0, 0, 0⟩
  (fin.result ++ pySlice s (fin.pos : Int) (s.length : Int), fin.updated, fin.skipped)

/-- The end offsets of all located sites, in document order. -/
def siteEnds (s : List Char) : List Nat :=
  (matchesOf s).map (fun m => siteEnd s m.1)

/-- The cursor positions a left-to-right splice needs: p, then each listed
value, must be nondecreasing. -/
def monoFrom : Nat → List Nat → Bool
  | _, [] => true
  | p, e :: rest => decide (p ≤ e) && monoFrom e rest

/-- Whether a decision is an application. -/
def isApplyDec : SiteDecision → Bool
  | .apply _ => true
  | _ => false

/-- Whether a decision is a skip. -/
def isSkipDec : SiteDecision → Bool
  | .skip => true
  | _ => false

/-- Whether a decision is an unresolved site. -/
def isUnresolvedDec : SiteDecision → Bool
  | .unresolved => true
  | _ => false

/-- How many of the given matches the loop applies an insertion to. -/
def countApplyList (s : List Char) (lk : List (List Char × LcscPart))
    (ms : List (Nat × List Char)) : Nat :=
  ms.countP (fun m => isApplyDec (decideSite s lk m))

/-- How many of the given matches the loop skips as already enriched. -/
def countSkipList (s : List Char) (lk : List (List Char × LcscPart))
    (ms : List (Nat × List Char)) : Nat :=
  ms.countP (fun m => isSkipDec (decideSite s lk m))

/-- How many of the given matches are unresolved (no lookup entry). -/
def countUnresolvedList (s : List Char) (lk : List (List Char × LcscPart))
    (ms : List (Nat × List Char)) : Nat :=
  ms.countP (fun m => isUnresolvedDec (decideSite s lk m))

/-- The number of sites of a document the rewrite applies an insertion to. -/
def countApplyOf (s : List Char) (lk : List (List Char × LcscPart)) : Nat :=
  countApplyList s lk (matchesOf s)

/-- The number of sites of a document the rewrite skips as enriched. -/
def countSkipOf (s : List Char) (lk : List (List Char × LcscPart)) : Nat :=
  countSkipList s lk (matchesOf s)

/-- The number of sites of a document left unresolved by the rewrite. -/
def countUnresolvedOf (s : List Char) (lk : List (List Char × LcscPart)) : Nat :=
  countUnresolvedList s lk (matchesOf s)

/-- The applied insertions for the given matches: for each site that gets
an insertion, its end offset and the synthesized text. -/
def insertionsOfList (s : List Char) (lk : List (List Char × LcscPart))
    (ms : List (Nat × List Char)) : List (Nat × List Char) :=
  ms.filterMap (fun m =>
    match decideSite s lk m with
    | .apply ins => some (siteEnd s m.1, ins)
    | _ => none)

/-- The applied insertions of a whole document. -/
def insertionsOf (s : List Char) (lk : List (List Char × LcscPart)) :
    List (Nat × List Char) :=
  insertionsOfList s lk (matchesOf s)

/-- Reassembly of a document with inserted text: copy the original bytes
up to each insertion offset, emit the inserted text there, and finish
with a verbatim copy of the rest. -/
def spliceFrom (s : List Char) (pos : Nat) : List (Nat × List Char) → List Char
  | [] => pySlice s (pos : Int) (s.length : Int)
  | (e, t) :: rest => pySlice s (pos : Int) (e : Int) ++ t ++ spliceFrom s e rest

/-- Modelled from the spec (section 4.1), for comparison with the code's
scanner: the spec's findMatchingClose tracks whether the scan position is
inside a double-quoted string literal (entered and exited on an unescaped
quote), ignores parenthesis characters while inside a string, returns the
offset one past the delimiter that brings the depth to zero, and reports
an error (none, the spec's MalformedDocument) at end of text. -/
def specScan : List Char → Int → Bool → Bool → Option Nat
  | [], _, _, _ => none
  | c :: rest, d, inStr, esc =>
    if inStr then
      if esc then (specScan rest d true false).map (· + 1)
      else if c = bslash then (specScan rest d true true).map (· + 1)
      else if c = dq then (specScan rest d false false).map (· + 1)
      else (specScan rest d true false).map (· + 1)
    else
      if c = dq then (specScan rest d true false).map (· + 1)
      else if c = '(' then (specScan rest (d + 1) false false).map (· + 1)
      else if c = ')' then
        if d - 1 = 0 then some 0
        else (specScan rest (d - 1) false false).map (· + 1)
      else (specScan rest d false false).map (· + 1)

/-- Modelled from the spec (section 4.1): the quote-aware record end
offset, one past the closing delimiter matching the record opened at
openOffset, or none (MalformedDocument) when there is no matching close. -/
def findMatchingCloseSpec (s : List Char) (openOffset : Nat) : Option Nat :=
  (specScan (s.drop openOffset) 0 false false).map (fun j => openOffset + j + 1)

/-- Demo document for the scanner claims: the quoted argument after the
LCSC code holds an unescaped closing parenthesis. -/
def docC1q : List Char := "(property \"LCSC\" \"C1\" \")\")".toList

/-- Demo document with no closing parenthesis at all. -/
def docNoClose : List Char := "(property \"LCSC\" \"C1\"".toList

/-- Demo document whose key record is followed by an LCSC_Manufacturer
property but no LCSC_MPN property. -/
def docMfrOnly : List Char :=
  "(property \"LCSC\" \"C7\")\n(property \"LCSC_Manufacturer\" \"X\")".toList

/-- Demo document with a second key record nested inside the first one's
scanned region, making the computed end offsets non-monotone. -/
def docNested : List Char :=
  "(property \"LCSC\" \"C1\" (property \"LCSC\" \"C2\"))t".toList

/-- Demo document with two key records carrying the same LCSC code. -/
def docTwo : List Char :=
  "(property \"LCSC\" \"C3\")x(property \"LCSC\" \"C3\")".toList

/-- Demo document with a single plain key record. -/
def docPlain : List Char := "(property \"LCSC\" \"C1\")".toList

/-- A looked-up part with ordinary values. -/
def partTI : LcscPart := ⟨"Texas Instruments".toList, "TAC5212".toList⟩

/-- A looked-up part whose manufacturer value contains a double quote. -/
def partQuote : LcscPart := ⟨'A' :: 'c' :: dq :: "me".toList, "M1".toList⟩

/-! ## Slice lemmas -/

theorem pyIdx_natCast (len n : Nat) : pyIdx len (n : Int) = min n len := by
  simp [pyIdx]

theorem pySlice_full (s : List Char) : pySlice s 0 (s.length : Int) = s := by
  have h0 : pyIdx s.length (0 : Int) = 0 := by simp [pyIdx]
  have h1 : pyIdx s.length (s.length : Int) = s.length := by
    rw [pyIdx_natCast]; omega
  simp [pySlice, h0, h1]

theorem list_take_drop_merge (l : List Char) (a b c : Nat) (h1 : a ≤ b) (h2 : b ≤ c) :
    (l.take b).drop a ++ (l.take c).drop b = (l.take c).drop a := by
  rw [List.drop_take b a l, List.drop_take c b l, List.drop_take c a l]
  have hbc : l.drop b = (l.drop a).drop (b - a) := by
    rw [List.drop_drop]
    congr 1
    omega
  rw [hbc]
  have hsum : c - a = (b - a) + (c - b) := by omega
  rw [hsum, List.take_add]

theorem pySlice_append (s : List Char) (a b c : Nat) (h1 : a ≤ b)
    (h2 : min b s.length ≤ min c s.length) :
    pySlice s (a : Int) (b : Int) ++ pySlice s (b : Int) (c : Int)
      = pySlice s (a : Int) (c : Int) := by
  simp only [pySlice, pyIdx_natCast]
  exact list_take_drop_merge s (min a s.length) (min b s.length) (min c s.length)
    (by omega) h2

/-! ## Monotone offset lists -/

theorem monoFrom_cons {p e : Nat} {rest : List Nat} :
    monoFrom p (e :: rest) = true ↔ p ≤ e ∧ monoFrom e rest = true := by
  simp [monoFrom]

theorem monoFrom_weaken {p q : Nat} {L : List Nat} (h : q ≤ p)
    (hm : monoFrom p L = true) : monoFrom q L = true := by
  cases L with
  | nil => simp [monoFrom]
  | cons e rest =>
    obtain ⟨h1, h2⟩ := monoFrom_cons.mp hm
    exact monoFrom_cons.mpr ⟨le_trans h h1, h2⟩

theorem monoFrom_insertions (s : List Char) (lk : List (List Char × LcscPart)) :
    ∀ (ms : List (Nat × List Char)) (p : Nat),
      monoFrom p (ms.map (fun m => siteEnd s m.1)) = true →
      monoFrom p ((insertionsOfList s lk ms).map Prod.fst) = true := by
  intro ms
  induction ms with
  | nil => intro p _; simp [insertionsOfList, monoFrom]
  | cons m rest ih =>
    intro p h
    rw [List.map_cons, monoFrom_cons] at h
    obtain ⟨h1, h2⟩ := h
    cases hd : decideSite s lk m with
    | skip =>
      simp only [insertionsOfList, List.filterMap_cons, hd]
      exact monoFrom_weaken h1 (ih _ h2)
    | unresolved =>
      simp only [insertionsOfList, List.filterMap_cons, hd]
      exact monoFrom_weaken h1 (ih _ h2)
    | apply ins =>
      simp only [insertionsOfList, List.filterMap_cons, hd, List.map_cons]
      exact monoFrom_cons.mpr ⟨h1, ih _ h2⟩

/-! ## Splice lemmas -/

theorem pySlice_spliceFrom (s : List Char) (pos e : Nat) (L : List (Nat × List Char))
    (h1 : pos ≤ e) (h2 : monoFrom e (L.map Prod.fst) = true) :
    pySlice s (pos : Int) (e : Int) ++ spliceFrom s e L = spliceFrom s pos L := by
  cases L with
  | nil =>
    simp only [spliceFrom]
    exact pySlice_append s pos e s.length h1 (by omega)
  | cons et rest =>
    obtain ⟨e1, t⟩ := et
    rw [List.map_cons, monoFrom_cons] at h2
    obtain ⟨h21, _⟩ := h2
    simp only [spliceFrom]
    rw [← List.append_assoc, ← List.append_assoc,
      pySlice_append s pos e e1 h1 (by omega)]

/-! ## The rewrite loop -/

theorem stepMatch_pos (s : List Char) (lk : List (List Char × LcscPart))
    (st : RunState) (m : Nat × List Char) :
    (stepMatch s lk st m).pos = siteEnd s m.1 := by
  unfold stepMatch
  cases decideSite s lk m <;> rfl

theorem stepMatch_skip (s : List Char) (lk : List (List Char × LcscPart))
    (st : RunState) (m : Nat × List Char) (hd : decideSite s lk m = .skip) :
    stepMatch s lk st m =
      ⟨st.result ++ pySlice s (st.pos : Int) ((siteEnd s m.1 : Nat) : Int),
        siteEnd s m.1, st.updated, st.skipped + 1⟩ := by
  unfold stepMatch
  rw [hd]

theorem stepMatch_unresolved (s : List Char) (lk : List (List Char × LcscPart))
    (st : RunState) (m : Nat × List Char) (hd : decideSite s lk m = .unresolved) :
    stepMatch s lk st m =
      ⟨st.result ++ pySlice s (st.pos : Int) ((siteEnd s m.1 : Nat) : Int),
        siteEnd s m.1, st.updated, st.skipped⟩ := by
  unfold stepMatch
  rw [hd]

theorem stepMatch_apply (s : List Char) (lk : List (List Char × LcscPart))
    (st : RunState) (m : Nat × List Char) (ins : List Char)
    (hd : decideSite s lk m = .apply ins) :
    stepMatch s lk st m =
      ⟨st.result ++ pySlice s (st.pos : Int) ((siteEnd s m.1 : Nat) : Int) ++ ins,
        siteEnd s m.1, st.updated + 1, st.skipped⟩ := by
  unfold stepMatch
  rw [hd]

theorem isApplyDec_skip : isApplyDec .skip = false := rfl

theorem isApplyDec_unresolved : isApplyDec .unresolved = false := rfl

theorem isApplyDec_apply (ins : List Char) : isApplyDec (.apply ins) = true := rfl

theorem isSkipDec_skip : isSkipDec .skip = true := rfl

theorem isSkipDec_unresolved : isSkipDec .unresolved = false := rfl

theorem isSkipDec_apply (ins : List Char) : isSkipDec (.apply ins) = false := rfl

theorem isUnresolvedDec_skip : isUnresolvedDec .skip = false := rfl

theorem isUnresolvedDec_unresolved : isUnresolvedDec .unresolved = true := rfl

theorem isUnresolvedDec_apply (ins : List Char) : isUnresolvedDec (.apply ins) = false := rfl

theorem countApplyList_cons (s : List Char) (lk : List (List Char × LcscPart))
    (m : Nat × List Char) (rest : List (Nat × List Char)) :
    countApplyList s lk (m :: rest)
      = countApplyList s lk rest + (if isApplyDec (decideSite s lk m) then 1 else 0) := by
  simp [countApplyList, List.countP_cons]

theorem countSkipList_cons (s : List Char) (lk : List (List Char × LcscPart))
    (m : Nat × List Char) (rest : List (Nat × List Char)) :
    countSkipList s lk (m :: rest)
      = countSkipList s lk rest + (if isSkipDec (decideSite s lk m) then 1 else 0) := by
  simp [countSkipList, List.countP_cons]

theorem countUnresolvedList_cons (s : List Char) (lk : List (List Char × LcscPart))
    (m : Nat × List Char) (rest : List (Nat × List Char)) :
    countUnresolvedList s lk (m :: rest)
      = countUnresolvedList s lk rest
        + (if isUnresolvedDec (decideSite s lk m) then 1 else 0) := by
  simp [countUnresolvedList, List.countP_cons]

theorem insertionsOfList_cons_skip (s : List Char) (lk : List (List Char × LcscPart))
    (m : Nat × List Char) (rest : List (Nat × List Char))
    (hd : decideSite s lk m = .skip) :
    insertionsOfList s lk (m :: rest) = insertionsOfList s lk rest := by
  simp [insertionsOfList, List.filterMap_cons, hd]

theorem insertionsOfList_cons_unresolved (s : List Char)
    (lk : List (List Char × LcscPart)) (m : Nat × List Char)
    (rest : List (Nat × List Char)) (hd : decideSite s lk m = .unresolved) :
    insertionsOfList s lk (m :: rest) = insertionsOfList s lk rest := by
  simp [insertionsOfList, List.filterMap_cons, hd]

theorem insertionsOfList_cons_apply (s : List Char) (lk : List (List Char × LcscPart))
    (m : Nat × List Char) (rest : List (Nat × List Char)) (ins : List Char)
    (hd : decideSite s lk m = .apply ins) :
    insertionsOfList s lk (m :: rest)
      = (siteEnd s m.1, ins) :: insertionsOfList s lk rest := by
  simp [insertionsOfList, List.filterMap_cons, hd]

theorem enrich_fold (s : List Char) (lk : List (List Char × LcscPart)) :
    ∀ (ms : List (Nat × List Char)) (st : RunState),
      monoFrom st.pos (ms.map (fun m => siteEnd s m.1)) = true →
      (ms.foldl (stepMatch s lk) st).result
          ++ pySlice s (((ms.foldl (stepMatch s lk) st).pos : Nat) : Int) (s.length : Int)
        = st.result ++ spliceFrom s st.pos (insertionsOfList s lk ms) := by
  intro ms
  induction ms with
  | nil =>
    intro st _
    simp [insertionsOfList, spliceFrom]
  | cons m rest ih =>
    intro st h
    rw [List.map_cons, monoFrom_cons] at h
    obtain ⟨h1, h2⟩ := h
    rw [List.foldl_cons]
    have hpos : (stepMatch s lk st m).pos = siteEnd s m.1 := stepMatch_pos s lk st m
    have IH := ih (stepMatch s lk st m) (by rw [hpos]; exact h2)
    cases hd : decideSite s lk m with
    | skip =>
      rw [stepMatch_skip s lk st m hd] at IH ⊢
      rw [IH, insertionsOfList_cons_skip s lk m rest hd]
      rw [List.append_assoc]
      congr 1
      exact pySlice_spliceFrom s st.pos (siteEnd s m.1) _ h1
        (monoFrom_insertions s lk rest _ h2)
    | unresolved =>
      rw [stepMatch_unresolved s lk st m hd] at IH ⊢
      rw [IH, insertionsOfList_cons_unresolved s lk m rest hd]
      rw [List.append_assoc]
      congr 1
      exact pySlice_spliceFrom s st.pos (siteEnd s m.1) _ h1
        (monoFrom_insertions s lk rest _ h2)
    | apply ins =>
      rw [stepMatch_apply s lk st m ins hd] at IH ⊢
      rw [IH, insertionsOfList_cons_apply s lk m rest ins hd]
      simp [spliceFrom, List.append_assoc]

theorem enrich_fold_counts (s : List Char) (lk : List (List Char × LcscPart)) :
    ∀ (ms : List (Nat × List Char)) (st : RunState),
      (ms.foldl (stepMatch s lk) st).updated = st.updated + countApplyList s lk ms
      ∧ (ms.foldl (stepMatch s lk) st).skipped = st.skipped + countSkipList s lk ms := by
  intro ms
  induction ms with
  | nil =>
    intro st
    simp [countApplyList, countSkipList]
  | cons m rest ih =>
    intro st
    rw [List.foldl_cons]
    obtain ⟨IH1, IH2⟩ := ih (stepMatch s lk st m)
    rw [countApplyList_cons, countSkipList_cons]
    cases hd : decideSite s lk m with
    | skip =>
      rw [stepMatch_skip s lk st m hd] at IH1 IH2 ⊢
      rw [IH1, IH2]
      simp [isApplyDec, isSkipDec]
      omega
    | unresolved =>
      rw [stepMatch_unresolved s lk st m hd] at IH1 IH2 ⊢
      rw [IH1, IH2]
      simp [isApplyDec, isSkipDec]
    | apply ins =>
      rw [stepMatch_apply s lk st m ins hd] at IH1 IH2 ⊢
      rw [IH1, IH2]
      simp [isApplyDec, isSkipDec]
      omega

theorem counts_partition (s : List Char) (lk : List (List Char × LcscPart))
    (ms : List (Nat × List Char)) :
    countApplyList s lk ms + countSkipList s lk ms + countUnresolvedList s lk ms
      = ms.length := by
  induction ms with
  | nil => rfl
  | cons m rest ih =>
    rw [countApplyList_cons, countSkipList_cons, countUnresolvedList_cons,
      List.length_cons]
    cases hd : decideSite s lk m <;>
      simp [isApplyDec, isSkipDec, isUnresolvedDec] <;> omega

theorem countApply_eq_insertions_length (s : List Char)
    (lk : List (List Char × LcscPart)) (ms : List (Nat × List Char)) :
    countApplyList s lk ms = (insertionsOfList s lk ms).length := by
  induction ms with
  | nil => rfl
  | cons m rest ih =>
    rw [countApplyList_cons]
    cases hd : decideSite s lk m with
    | skip =>
      rw [insertionsOfList_cons_skip s lk m rest hd]
      simp [isApplyDec, ih]
    | unresolved =>
      rw [insertionsOfList_cons_unresolved s lk m rest hd]
      simp [isApplyDec, ih]
    | apply ins =>
      rw [insertionsOfList_cons_apply s lk m rest ins hd]
      simp [isApplyDec, ih]

/-! ## Characterizing the scan loop -/

theorem netFrom_nil (d : Int) : netFrom d [] = d := rfl

theorem netFrom_cons (d : Int) (c : Char) (l : List Char) :
    netFrom d (c :: l) = netFrom (stepDepth d c) l := rfl

theorem scanBreak_cons (c : Char) (rest : List Char) (d : Int) :
    scanBreak (c :: rest) d =
      if c = ')' ∧ stepDepth d c = 0 then some 0
      else (scanBreak rest (stepDepth d c)).map (· + 1) := rfl

theorem scanBreak_eq_none_iff : ∀ (cs : List Char) (d : Int),
    scanBreak cs d = none ↔
      ∀ j : Nat, ¬(cs[j]? = some ')' ∧ netFrom d (cs.take (j + 1)) = 0) := by
  intro cs
  induction cs with
  | nil =>
    intro d
    simp [scanBreak]
  | cons c rest ih =>
    intro d
    rw [scanBreak_cons]
    by_cases hc : c = ')' ∧ stepDepth d c = 0
    · rw [if_pos hc]
      constructor
      · intro h
        exact absurd h (by simp)
      · intro h
        exfalso
        apply h 0
        constructor
        · simp [hc.1]
        · simpa [List.take_succ_cons, netFrom_cons, netFrom_nil] using hc.2
    · rw [if_neg hc]
      rw [Option.map_eq_none']
      rw [ih (stepDepth d c)]
      constructor
      · intro h j
        cases j with
        | zero =>
          rintro ⟨hj1, hj2⟩
          apply hc
          constructor
          · simpa using hj1
          · simpa [List.take_succ_cons, netFrom_cons, netFrom_nil] using hj2
        | succ k =>
          rintro ⟨hj1, hj2⟩
          apply h k
          constructor
          · simpa using hj1
          · simpa [List.take_succ_cons, netFrom_cons] using hj2
      · intro h k
        rintro ⟨hk1, hk2⟩
        apply h (k + 1)
        constructor
        · simpa using hk1
        · simpa [List.take_succ_cons, netFrom_cons] using hk2

theorem scanBreak_eq_some_iff : ∀ (cs : List Char) (d : Int) (j : Nat),
    scanBreak cs d = some j ↔
      (cs[j]? = some ')' ∧ netFrom d (cs.take (j + 1)) = 0
        ∧ ∀ i < j, ¬(cs[i]? = some ')' ∧ netFrom d (cs.take (i + 1)) = 0)) := by
  intro cs
  induction cs with
  | nil =>
    intro d j
    simp [scanBreak]
  | cons c rest ih =>
    intro d j
    rw [scanBreak_cons]
    by_cases hc : c = ')' ∧ stepDepth d c = 0
    · rw [if_pos hc]
      cases j with
      | zero =>
        constructor
        · intro _
          refine ⟨by simp [hc.1], ?_, ?_⟩
          · simpa [List.take_succ_cons, netFrom_cons, netFrom_nil] using hc.2
          · intro i hi
            exact absurd hi (Nat.not_lt_zero i)
        · intro _
          rfl
      | succ k =>
        constructor
        · intro h
          exact absurd h (by simp)
        · rintro ⟨_, _, h3⟩
          exfalso
          apply h3 0 (Nat.succ_pos k)
          refine ⟨by simp [hc.1], ?_⟩
          simpa [List.take_succ_cons, netFrom_cons, netFrom_nil] using hc.2
    · rw [if_neg hc]
      cases j with
      | zero =>
        constructor
        · intro h
          rcases Option.map_eq_some'.mp h with ⟨a, _, ha⟩
          omega
        · rintro ⟨h1, h2, _⟩
          exfalso
          apply hc
          constructor
          · simpa using h1
          · simpa [List.take_succ_cons, netFrom_cons, netFrom_nil] using h2
      | succ k =>
        rw [Option.map_eq_some']
        constructor
        · rintro ⟨a, ha, ha2⟩
          have hak : a = k := by omega
          rw [hak] at ha
          rcases (ih (stepDepth d c) k).mp ha with ⟨g1, g2, g3⟩
          refine ⟨by simpa using g1, ?_, ?_⟩
          · simpa [List.take_succ_cons, netFrom_cons] using g2
          · intro i hi
            cases i with
            | zero =>
              rintro ⟨p1, p2⟩
              apply hc
              constructor
              · simpa using p1
              · simpa [List.take_succ_cons, netFrom_cons, netFrom_nil] using p2
            | succ l =>
              rintro ⟨p1, p2⟩
              apply g3 l (by omega)
              constructor
              · simpa using p1
              · simpa [List.take_succ_cons, netFrom_cons] using p2
        · rintro ⟨h1, h2, h3⟩
          refine ⟨k, ?_, rfl⟩
          apply (ih (stepDepth d c) k).mpr
          refine ⟨by simpa using h1, ?_, ?_⟩
          · simpa [List.take_succ_cons, netFrom_cons] using h2
          · intro l hl
            rintro ⟨q1, q2⟩
            apply h3 (l + 1) (by omega)
            constructor
            · simpa using q1
            · simpa [List.take_succ_cons, netFrom_cons] using q2

/-! ## The substring test -/

theorem hasSubstr_iff (needle : List Char) : ∀ hay : List Char,
    hasSubstr needle hay = true ↔ needle <:+: hay := by
  intro hay
  induction hay with
  | nil =>
    simp [hasSubstr, List.isEmpty_iff, List.infix_nil]
  | cons c t ih =>
    simp [hasSubstr, Bool.or_eq_true, List.isPrefixOf_iff_prefix, ih,
      List.infix_cons_iff]

theorem propEnd_eq_of_some (s : List Char) (p j : Nat)
    (h : scanBreak (s.drop p) 0 = some j) :
    propEnd s (p : Int) = p + j + 1 := by
  unfold propEnd
  rw [if_pos (Int.natCast_nonneg p)]
  simp only [Int.toNat_natCast]
  rw [h]

theorem propEnd_eq_of_none (s : List Char) (p : Nat)
    (h : scanBreak (s.drop p) 0 = none) :
    propEnd s (p : Int) = s.length + 1 := by
  unfold propEnd
  rw [if_pos (Int.natCast_nonneg p)]
  simp only [Int.toNat_natCast]
  rw [h]

/-! ## Claims about the scanner -/

/-- Claim C1 (counterexample): on a document whose quoted argument holds an
unescaped closing parenthesis, the scanner of lines 126-135 stops at the
parenthesis inside the string literal (end offset 24, inside the quoted
text), while the quote-aware scanner described by the spec balances the
record at offset 26, so the computed end offset is not the offset after
the parenthesis that actually balances the record. -/
theorem c1_counterexample :
    siteEnd docC1q 1 = 24
    ∧ findMatchingCloseSpec docC1q 0 = some 26
    ∧ propEnd docC1q 0 ≠ 26 := by decide

/-- Claim C1 (amended): the scanner does not track quoted strings at all —
every parenthesis is counted, including those inside double-quoted
literals, and the reported end offset is one past the first closing
parenthesis at which the raw depth count reaches zero (and no earlier
position qualifies), which can lie inside a quoted string literal. -/
theorem c1_raw_depth_scan (s : List Char) (p j : Nat)
    (h : scanBreak (s.drop p) 0 = some j) :
    propEnd s (p : Int) = p + j + 1
    ∧ (s.drop p)[j]? = some ')'
    ∧ netFrom 0 ((s.drop p).take (j + 1)) = 0
    ∧ ∀ i < j, ¬((s.drop p)[i]? = some ')'
        ∧ netFrom 0 ((s.drop p).take (i + 1)) = 0) := by
  rcases (scanBreak_eq_some_iff (s.drop p) 0 j).mp h with ⟨g1, g2, g3⟩
  refine ⟨?_, g1, g2, g3⟩
  unfold propEnd
  rw [if_pos (Int.natCast_nonneg p)]
  simp only [Int.toNat_natCast]
  rw [h]

theorem c1_raw_depth_scan_witness :
    propEnd docC1q ((0 : Nat) : Int) = 0 + 23 + 1
    ∧ (docC1q.drop 0)[23]? = some ')'
    ∧ netFrom 0 ((docC1q.drop 0).take (23 + 1)) = 0
    ∧ ∀ i < 23, ¬((docC1q.drop 0)[i]? = some ')'
        ∧ netFrom 0 ((docC1q.drop 0).take (i + 1)) = 0) :=
  c1_raw_depth_scan docC1q 0 23 (by decide)

/-- Claim C2 (counterexample): on a document with no matching close the
scanner does not fail — it silently produces the out-of-range offset
len + 1 — and the rewrite does not abort: it emits an output document
(here even one with an insertion applied). -/
theorem c2_counterexample :
    propEnd docNoClose 0 = docNoClose.length + 1
    ∧ enrich_schematic docNoClose [("C1".toList, partTI)]
        = (docNoClose ++ newProps [] partTI, 1, 0) := by decide

/-- Claim C2 (amended): when (and only when) no closing parenthesis
balances the scan started at offset p, the scanner silently returns
len + 1 as the end offset instead of failing; no MalformedDocument error
exists and the rewrite continues normally. -/
theorem c2_no_close_silent (s : List Char) (p : Nat) :
    propEnd s (p : Int) = s.length + 1
      ↔ ∀ j : Nat, ¬((s.drop p)[j]? = some ')'
          ∧ netFrom 0 ((s.drop p).take (j + 1)) = 0) := by
  constructor
  · intro he
    cases h : scanBreak (s.drop p) 0 with
    | none =>
      exact (scanBreak_eq_none_iff (s.drop p) 0).mp h
    | some j =>
      exfalso
      have he2 := propEnd_eq_of_some s p j h
      rcases (scanBreak_eq_some_iff (s.drop p) 0 j).mp h with ⟨g1, _, _⟩
      have hj : j < (s.drop p).length := by
        rw [List.getElem?_eq_some] at g1
        exact g1.1
      rw [List.length_drop] at hj
      omega
  · intro hall
    cases h : scanBreak (s.drop p) 0 with
    | none =>
      exact propEnd_eq_of_none s p h
    | some j =>
      exfalso
      rcases (scanBreak_eq_some_iff (s.drop p) 0 j).mp h with ⟨g1, g2, _⟩
      exact hall j ⟨g1, g2⟩

/-! ## Claims about the gate -/

/-- Claim C3 (counterexample): a site followed by an LCSC_Manufacturer
property but with no LCSC_MPN token in the window, and with a lookup entry
available, is nevertheless skipped as already enriched (skipped = 1,
nothing inserted), while the claim requires the gate to return false when
only a subset of the derived field names is present. -/
theorem c3_counterexample :
    siteEnd docMfrOnly 1 = 22
    ∧ hasSubstr "(property \"LCSC_MPN\"".toList (pySlice docMfrOnly 22 322) = false
    ∧ List.lookup "C7".toList [("C7".toList, partTI)] = some partTI
    ∧ enrich_schematic docMfrOnly [("C7".toList, partTI)] = (docMfrOnly, 0, 1) := by
  decide

/-- Claim C3 (amended): the already-enriched gate is a pure substring test
for the single token starting an LCSC_Manufacturer property in the
300-character window after the record end; LCSC_MPN is not consulted, so a
site carrying only LCSC_Manufacturer is treated as already enriched. -/
theorem c3_gate_manufacturer_only (s : List Char) (e : Nat) :
    isAlreadyEnriched s e = true
      ↔ mfrNeedle <:+: pySlice s (e : Int) ((e : Int) + 300) := by
  unfold isAlreadyEnriched
  exact hasSubstr_iff mfrNeedle _

/-! ## Claims about the synthesizer -/

/-- Claim C4 (counterexample): a looked-up value containing the
double-quote character is not rejected — the site is rewritten (updated
counter is 1) and the value is embedded as-is into the synthesized record,
producing text with a stray quote; no UnsupportedValue error exists. -/
theorem c4_counterexample :
    dq ∈ partQuote.manufacturer
    ∧ enrich_schematic docPlain [("C1".toList, partQuote)]
        = (docPlain ++ newProps [] partQuote, 1, 0) := by decide

/-- Claim C4 (amended): the synthesizer embeds the looked-up manufacturer
and MPN values verbatim — each occurs as a contiguous substring of the
synthesized text, with no quoting check or escaping whatsoever. -/
theorem c4_value_embedded_verbatim (indent : List Char) (part : LcscPart) :
    part.manufacturer <:+: newProps indent part
    ∧ part.mpn <:+: newProps indent part := by
  constructor
  · refine ⟨('\n' :: indent) ++ "(property \"LCSC_Manufacturer\" \"".toList,
      "\"\n".toList
      ++ indent ++ "\t(at 0 0 0)\n".toList
      ++ indent ++ "\t(effects\n".toList
      ++ indent ++ "\t\t(font\n".toList
      ++ indent ++ "\t\t\t(size 1.27 1.27)\n".toList
      ++ indent ++ "\t\t)\n".toList
      ++ indent ++ "\t\t(hide yes)\n".toList
      ++ indent ++ "\t)\n".toList
      ++ indent ++ ")\n".toList
      ++ indent ++ "(property \"LCSC_MPN\" \"".toList
      ++ part.mpn ++ "\"\n".toList
      ++ indent ++ "\t(at 0 0 0)\n".toList
      ++ indent ++ "\t(effects\n".toList
      ++ indent ++ "\t\t(font\n".toList
      ++ indent ++ "\t\t\t(size 1.27 1.27)\n".toList
      ++ indent ++ "\t\t)\n".toList
      ++ indent ++ "\t\t(hide yes)\n".toList
      ++ indent ++ "\t)\n".toList
      ++ indent ++ ")".toList, ?_⟩
    simp [newProps, List.append_assoc]
  · refine ⟨('\n' :: indent) ++ "(property \"LCSC_Manufacturer\" \"".toList
      ++ part.manufacturer ++ "\"\n".toList
      ++ indent ++ "\t(at 0 0 0)\n".toList
      ++ indent ++ "\t(effects\n".toList
      ++ indent ++ "\t\t(font\n".toList
      ++ indent ++ "\t\t\t(size 1.27 1.27)\n".toList
      ++ indent ++ "\t\t)\n".toList
      ++ indent ++ "\t\t(hide yes)\n".toList
      ++ indent ++ "\t)\n".toList
      ++ indent ++ ")\n".toList
      ++ indent ++ "(property \"LCSC_MPN\" \"".toList,
      "\"\n".toList
      ++ indent ++ "\t(at 0 0 0)\n".toList
      ++ indent ++ "\t(effects\n".toList
      ++ indent ++ "\t\t(font\n".toList
      ++ indent ++ "\t\t\t(size 1.27 1.27)\n".toList
      ++ indent ++ "\t\t)\n".toList
      ++ indent ++ "\t\t(hide yes)\n".toList
      ++ indent ++ "\t)\n".toList
      ++ indent ++ ")".toList, ?_⟩
    simp [newProps, List.append_assoc]

/-! ## Claims about the rewriter -/

/-- Claim C5 (counterexample): on a document with exactly one site, whose
value has no lookup entry, the rewriter returns (text, 0, 0) — both
returned counters are 0 although one site is unresolved, so no returned
component reports the unresolved count; only two counters are returned. -/
theorem c5_counterexample :
    enrich_schematic docPlain [] = (docPlain, 0, 0)
    ∧ countUnresolvedOf docPlain [] = 1 := by decide

/-- Claim C5 (amended): the rewriter returns exactly two counters, updated
(applied) and skipped; an unresolved site increments neither, and
applied + skipped + unresolved equals the number of located sites, so the
unresolved count is derivable from the site count but is not an explicit
return value. -/
theorem c5_two_counters_accounting (s : List Char)
    (lk : List (List Char × LcscPart)) :
    (enrich_schematic s lk).2.1 = countApplyOf s lk
    ∧ (enrich_schematic s lk).2.2 = countSkipOf s lk
    ∧ countApplyOf s lk + countSkipOf s lk + countUnresolvedOf s lk
        = (matchesOf s).length := by
  obtain ⟨h1, h2⟩ := enrich_fold_counts s lk (matchesOf s) ⟨[], 0, 0, 0⟩
  refine ⟨?_, ?_, counts_partition s lk (matchesOf s)⟩
  · simpa [enrich_schematic, countApplyOf] using h1
  · simpa [enrich_schematic, countSkipOf] using h2

/-- Claim C6 (counterexample): with a second key record nested inside the
first record's scanned region the end offsets are not monotone, and the
output is not the input plus insertions — one original byte is duplicated
(output length exceeds input length plus insertion length by one). -/
theorem c6_counterexample :
    monoFrom 0 (siteEnds docNested) = false
    ∧ (enrich_schematic docNested [("C2".toList, partTI)]).1
        ≠ spliceFrom docNested 0 (insertionsOf docNested [("C2".toList, partTI)])
    ∧ (enrich_schematic docNested [("C2".toList, partTI)]).1.length
        = docNested.length + (newProps [] partTI).length + 1 := by decide

/-- Claim C6 (amended): provided the located sites' end offsets are
nondecreasing in document order (no nested or overlapping target records),
the output is exactly the input document with each synthesized insertion
spliced in at its site's end offset — original spans are copied verbatim
between insertions, with the tail after the last site copied verbatim —
and the applied counter equals the number of insertions. -/
theorem c6_insertion_placement (s : List Char) (lk : List (List Char × LcscPart))
    (hmono : monoFrom 0 (siteEnds s) = true) :
    (enrich_schematic s lk).1 = spliceFrom s 0 (insertionsOf s lk)
    ∧ (enrich_schematic s lk).2.1 = (insertionsOf s lk).length := by
  have hm : monoFrom (0 : Nat) ((matchesOf s).map (fun m => siteEnd s m.1)) = true := by
    simpa [siteEnds] using hmono
  have h := enrich_fold s lk (matchesOf s) ⟨[], 0, 0, 0⟩ (by simpa using hm)
  obtain ⟨h1, _⟩ := enrich_fold_counts s lk (matchesOf s) ⟨[], 0, 0, 0⟩
  constructor
  · simpa [enrich_schematic, insertionsOf] using h
  · rw [countApply_eq_insertions_length] at h1
    simpa [enrich_schematic, insertionsOf] using h1

theorem c6_insertion_placement_witness :
    (enrich_schematic docTwo [("C3".toList, partTI)]).1
        = spliceFrom docTwo 0 (insertionsOf docTwo [("C3".toList, partTI)])
    ∧ (enrich_schematic docTwo [("C3".toList, partTI)]).2.1
        = (insertionsOf docTwo [("C3".toList, partTI)]).length :=
  c6_insertion_placement docTwo [("C3".toList, partTI)] (by decide)

/-- Claim C8 (confirmed): a site that is not gated as enriched and whose
value has no entry in the lookup mapping leaves the loop state's counters
untouched and extends the output with exactly the original bytes from the
cursor to the site's end offset — the input region is copied verbatim. -/
theorem c8_unresolved_frame (s : List Char) (lk : List (List Char × LcscPart))
    (st : RunState) (m : Nat × List Char)
    (hgate : isAlreadyEnriched s (siteEnd s m.1) = false)
    (hlk : List.lookup m.2 lk = none) :
    stepMatch s lk st m =
      ⟨st.result ++ pySlice s (st.pos : Int) ((siteEnd s m.1 : Nat) : Int),
        siteEnd s m.1, st.updated, st.skipped⟩ := by
  apply stepMatch_unresolved
  unfold decideSite
  rw [hgate, hlk]
  rfl

theorem c8_unresolved_frame_witness :
    stepMatch docPlain [] ⟨"ab".toList, 3, 2, 5⟩ (1, "C1".toList) =
      ⟨"ab".toList ++ pySlice docPlain ((3 : Nat) : Int)
          ((siteEnd docPlain (1, "C1".toList).1 : Nat) : Int),
        siteEnd docPlain (1, "C1".toList).1, 2, 5⟩ :=
  c8_unresolved_frame docPlain [] ⟨"ab".toList, 3, 2, 5⟩ (1, "C1".toList)
    (by decide) (by decide)

/-- Claim C9 (confirmed): with two key records carrying the same value and
one lookup entry for it, each site is evaluated independently and each
receives its own full insertion at its own end offset — no deduplication:
the applied counter is 2 and the inserted text appears twice. -/
theorem c9_no_dedup :
    enrich_schematic docTwo [("C3".toList, partTI)]
      = (pySlice docTwo 0 22 ++ newProps [] partTI
          ++ pySlice docTwo 22 45 ++ newProps [] partTI, 2, 0) := by decide

/-- Claim C10 (counterexample): with a nested target record the copied
spans do not partition the input — on this document the rewrite applies
no insertion (applied = 0) yet the output differs from the input (a byte
is duplicated). -/
theorem c10_counterexample :
    (enrich_schematic docNested []).2.1 = 0
    ∧ (enrich_schematic docNested []).1 ≠ docNested := by decide

/-- Claim C10 (amended): provided the located sites' end offsets are
nondecreasing in document order, a run that applies no insertion returns
the input text byte for byte. -/
theorem c10_no_apply_identity (s : List Char) (lk : List (List Char × LcscPart))
    (hmono : monoFrom 0 (siteEnds s) = true)
    (happ : (enrich_schematic s lk).2.1 = 0) :
    (enrich_schematic s lk).1 = s := by
  have hm : monoFrom (0 : Nat) ((matchesOf s).map (fun m => siteEnd s m.1)) = true := by
    simpa [siteEnds] using hmono
  have h := enrich_fold s lk (matchesOf s) ⟨[], 0, 0, 0⟩ (by simpa using hm)
  obtain ⟨hcnt, _⟩ := enrich_fold_counts s lk (matchesOf s) ⟨[], 0, 0, 0⟩
  have h0 : countApplyList s lk (matchesOf s) = 0 := by
    have he : (enrich_schematic s lk).2.1 = countApplyList s lk (matchesOf s) := by
      simpa [enrich_schematic] using hcnt
    omega
  have hins : insertionsOfList s lk (matchesOf s) = [] := by
    have hl := countApply_eq_insertions_length s lk (matchesOf s)
    rw [h0] at hl
    exact List.length_eq_zero.mp hl.symm
  rw [hins] at h
  have he2 : (enrich_schematic s lk).1 = spliceFrom s 0 [] := by
    simpa [enrich_schematic] using h
  rw [he2]
  simpa [spliceFrom] using pySlice_full s

theorem c10_no_apply_identity_witness :
    (enrich_schematic docPlain []).1 = docPlain :=
  c10_no_apply_identity docPlain [] (by decide) (by decide)

/-- Claim C7 (counterexample): on a document whose single site is already
enriched, the first run applies nothing (applied = 0) but the second run
reports skipped = 1, so the second run's skipped count does not equal the
number of sites applied in the first run. -/
theorem c7_counterexample :
    (enrich_schematic (enrich_schematic docMfrOnly [("C7".toList, partTI)]).1
        [("C7".toList, partTI)]).2.2
      ≠ (enrich_schematic docMfrOnly [("C7".toList, partTI)]).2.1 := by decide

/-- Claim C7 (amended): re-applying the rewrite to its own output yields
the same text with an applied count of 0, provided every site of that
output is gated as already enriched or left unresolved (no further
applications) and the output's site end offsets are nondecreasing; the
second run's skipped count equals the number of sites of the output gated
as already enriched (first-run applied plus first-run skipped sites), not
the number of first-run applications alone. -/
theorem c7_second_run_fixed_point (s : List Char) (lk : List (List Char × LcscPart))
    (hmono : monoFrom 0 (siteEnds (enrich_schematic s lk).1) = true)
    (happ : countApplyOf (enrich_schematic s lk).1 lk = 0) :
    enrich_schematic (enrich_schematic s lk).1 lk
      = ((enrich_schematic s lk).1, 0,
          countSkipOf (enrich_schematic s lk).1 lk) := by
  set t := (enrich_schematic s lk).1 with ht
  have hm : monoFrom (0 : Nat) ((matchesOf t).map (fun m => siteEnd t m.1)) = true := by
    simpa [siteEnds] using hmono
  have h := enrich_fold t lk (matchesOf t) ⟨[], 0, 0, 0⟩ (by simpa using hm)
  obtain ⟨hu, hs⟩ := enrich_fold_counts t lk (matchesOf t) ⟨[], 0, 0, 0⟩
  have h0 : countApplyList t lk (matchesOf t) = 0 := happ
  have hins : insertionsOfList t lk (matchesOf t) = [] := by
    have hl := countApply_eq_insertions_length t lk (matchesOf t)
    rw [h0] at hl
    exact List.length_eq_zero.mp hl.symm
  rw [hins] at h
  have e1 : (enrich_schematic t lk).1 = t := by
    have he2 : (enrich_schematic t lk).1 = spliceFrom t 0 [] := by
      simpa [enrich_schematic] using h
    rw [he2]
    simpa [spliceFrom] using pySlice_full t
  have e2 : (enrich_schematic t lk).2.1 = 0 := by
    have := hu
    rw [h0] at this
    simpa [enrich_schematic] using this
  have e3 : (enrich_schematic t lk).2.2 = countSkipOf t lk := by
    simpa [enrich_schematic, countSkipOf] using hs
  calc enrich_schematic t lk
      = ((enrich_schematic t lk).1,
          (enrich_schematic t lk).2.1, (enrich_schematic t lk).2.2) := rfl
    _ = (t, 0, countSkipOf t lk) := by rw [e1, e2, e3]

theorem c7_second_run_fixed_point_witness :
    enrich_schematic (enrich_schematic docPlain [("C1".toList, partTI)]).1
        [("C1".toList, partTI)]
      = ((enrich_schematic docPlain [("C1".toList, partTI)]).1, 0,
          countSkipOf (enrich_schematic docPlain [("C1".toList, partTI)]).1
            [("C1".toList, partTI)]) :=
  c7_second_run_fixed_point docPlain [("C1".toList, partTI)] (by decide) (by decide)
